import Mathlib

/-!
Shallow embedding of the meeting-availability resolver of
`CalendarConnector` (src/unnamed/part_002): interval merging, candidate
slot generation, heuristic scoring, slot selection, confidence estimation
and the surrounding `findOptimalTime` orchestration.

Times are modelled as integer milliseconds since the Unix epoch, as in
JavaScript `Date.getTime()`.  The JavaScript local-time accessors
(`getHours`, `getMinutes`, `getDay`) are modelled in UTC with floor
division (`Int.ediv` / `Int.emod`), which matches a process running with
a UTC clock; Jan 1 1970 is a Thursday, hence the `+ 4` in the weekday.
The fractional slot score is modelled in `ℚ` (exact rational arithmetic
in place of IEEE doubles).
-/

namespace CalendarConnector

/-- UTC hour-of-day of a timestamp in milliseconds (JS `date.getHours()`). -/
def getHoursUTC (t : Int) : Int := t / 3600000 % 24

/-- UTC minute-of-hour of a timestamp in milliseconds (JS `date.getMinutes()`). -/
def getMinutesUTC (t : Int) : Int := t / 60000 % 60

/-- UTC day-of-week, 0 = Sunday (JS `date.getDay()`); Jan 1 1970 was a Thursday (4). -/
def getDayUTC (t : Int) : Int := (t / 86400000 + 4) % 7

/-- A `{start, end}` pair of instants (busy period or candidate slot).
The JS field `end` is a Lean keyword, so it is called `stop` here. -/
structure TimeInterval where
  start : Int
  stop : Int
deriving DecidableEq, Repr

/-- Comparator used by `allBusyPeriods.sort((a, b) => a.start - b.start)`. -/
def startLE (a b : TimeInterval) : Prop := a.start ≤ b.start

instance : DecidableRel startLE := fun a b => inferInstanceAs (Decidable (a.start ≤ b.start))

instance : IsTotal TimeInterval startLE := ⟨fun a b => Int.le_total a.start b.start⟩

instance : IsTrans TimeInterval startLE := ⟨fun _ _ _ h1 h2 => Int.le_trans h1 h2⟩

/-- `allBusyPeriods.sort((a, b) => a.start - b.start)`: sort busy periods by
ascending start (JS `Array.prototype.sort` is stable; so is insertion sort). -/
def sortByStart (l : List TimeInterval) : List TimeInterval := List.insertionSort startLE l

/-- The loop body of `mergeBusyPeriods`: `last` is the last accumulated
interval (`merged[merged.length - 1]`); when `current.start <= lastMerged.end`
its end is replaced by the max of the two ends, otherwise `last` is emitted
and `current` becomes the accumulator. -/
def mergeAux : TimeInterval → List TimeInterval → List TimeInterval
  | last, [] => [last]
  | last, current :: rest =>
    if current.start ≤ last.stop then
      mergeAux ⟨last.start, max last.stop current.stop⟩ rest
    else
      last :: mergeAux current rest

/-- `mergeBusyPeriods(busyPeriods)`: returns `[]` on empty input, otherwise
seeds the accumulator with the first interval and folds the rest. -/
def mergeBusyPeriods : List TimeInterval → List TimeInterval
  | [] => []
  | p :: ps => mergeAux p ps

/-- The sort-then-merge pipeline as invoked by `findAvailableSlots`
(lines 704-706 of the source): sort by start ascending, then merge. -/
def mergeTimeline (l : List TimeInterval) : List TimeInterval :=
  mergeBusyPeriods (sortByStart l)

/-- `roundToNextQuarter(date)`: if the minute is already a multiple of 15 the
date is returned unchanged (seconds and milliseconds included); otherwise the
minutes are advanced to the next multiple of 15 and seconds and milliseconds
are zeroed, i.e. the result is the start of the minute plus `15 - remainder`
minutes. -/
def roundToNextQuarter (t : Int) : Int :=
  let minutes := getMinutesUTC t
  let remainder := minutes % 15
  if remainder = 0 then t
  else (t - t % 60000) + (15 - remainder) * 60000

/-- The `while` loop of `findSlotsInTimeRange`, made structural with explicit
fuel.  The loop runs while `current + durationMs <= endTime`, accepts the
candidate when its start hour is in `[workingHours.start, workingHours.end)`
and the end's hour-of-day is `<= workingHours.end`, and advances `current` by
15 minutes each iteration. -/
def slotLoop (endTime durationMs wStart wEnd : Int) : Nat → Int → List TimeInterval
  | 0, _ => []
  | fuel + 1, current =>
    if current + durationMs ≤ endTime then
      if wStart ≤ getHoursUTC current ∧ getHoursUTC current < wEnd then
        if getHoursUTC (current + durationMs) ≤ wEnd then
          ⟨current, current + durationMs⟩
            :: slotLoop endTime durationMs wStart wEnd fuel (current + 15 * 60 * 1000)
        else slotLoop endTime durationMs wStart wEnd fuel (current + 15 * 60 * 1000)
      else slotLoop endTime durationMs wStart wEnd fuel (current + 15 * 60 * 1000)
    else []

/-- `findSlotsInTimeRange(startTime, endTime, durationMs, workingHours, _)`.
The fuel `(endTime - durationMs - startTime).toNat / 900000 + 1` is exactly
the number of iterations the JS `while` loop performs (one check past the
last accepted start), so the embedding computes the same list. -/
def findSlotsInTimeRange (startTime endTime durationMs wStart wEnd : Int) : List TimeInterval :=
  slotLoop endTime durationMs wStart wEnd
    ((endTime - durationMs - startTime).toNat / 900000 + 1) startTime

/-- The gap-walking loop of `findAvailableSlots` (lines 712-727): for each
merged busy period, the gap runs from `currentTime` to `busyPeriod.start -
bufferMs`; afterwards `currentTime` becomes `busyPeriod.end + bufferMs`.
After the loop, a final gap from `currentTime` to `timeMax` is scanned when
`currentTime < timeMax`. -/
def genGapSlots : List TimeInterval → Int → Int → Int → Int → Int → Int → List TimeInterval
  | [], current, timeMax, durationMs, _bufferMs, wStart, wEnd =>
    if current < timeMax then findSlotsInTimeRange current timeMax durationMs wStart wEnd
    else []
  | busy :: rest, current, timeMax, durationMs, bufferMs, wStart, wEnd =>
    let gapEnd := busy.start - bufferMs
    (if current < gapEnd then findSlotsInTimeRange current gapEnd durationMs wStart wEnd
     else [])
      ++ genGapSlots rest (busy.stop + bufferMs) timeMax durationMs bufferMs wStart wEnd

/-- `busyTimes` (the `freebusy` response `data.calendars`) modelled as an
association list from calendar id to its busy intervals; calendars missing
from the response contribute nothing, exactly like the
`if (busyData && busyData.busy)` guard. -/
def collectBusyPeriods (busyTimes : List (String × List TimeInterval))
    (calendarIds : List String) : List TimeInterval :=
  calendarIds.flatMap fun id => (busyTimes.lookup id).getD []

/-- `findAvailableSlots({busyTimes, calendarIds, timeMin, timeMax, duration,
workingHours, timezone, bufferMinutes})`.  `Date.now()` is passed explicitly
as `now`; `currentTime` starts at `roundToNextQuarter(max(timeMin, now))` and
the final list is capped at 20 candidates (`slice(0, 20)`). -/
def findAvailableSlots (busyTimes : List (String × List TimeInterval))
    (calendarIds : List String) (now timeMin timeMax duration wStart wEnd bufferMinutes : Int) :
    List TimeInterval :=
  let durationMs := duration * 60 * 1000
  let bufferMs := bufferMinutes * 60 * 1000
  let mergedBusyPeriods := mergeTimeline (collectBusyPeriods busyTimes calendarIds)
  let currentTime := roundToNextQuarter (max timeMin now)
  (genGapSlots mergedBusyPeriods currentTime timeMax durationMs bufferMs wStart wEnd).take 20

/-- `score += 100` when `slot.start > twoHoursFromNow` (strict comparison). -/
def tooSoonBonus (now startT : Int) : ℚ :=
  if now + 2 * 60 * 60 * 1000 < startT then 100 else 0

/-- `if (hour >= 10 && hour <= 16) score += 50` — note the inclusive `<= 16`. -/
def coreHoursBonus (startT : Int) : ℚ :=
  if 10 ≤ getHoursUTC startT ∧ getHoursUTC startT ≤ 16 then 50 else 0

/-- `if (day >= 2 && day <= 4) score += 20` (Tuesday through Thursday). -/
def midweekBonus (startT : Int) : ℚ :=
  if 2 ≤ getDayUTC startT ∧ getDayUTC startT ≤ 4 then 20 else 0

/-- `if (day === 1 && hour < 10) score -= 30; if (day === 5 && hour > 15) score -= 30`. -/
def edgeOfWeekPenalty (startT : Int) : ℚ :=
  (if getDayUTC startT = 1 ∧ getHoursUTC startT < 10 then -30 else 0)
    + (if getDayUTC startT = 5 ∧ 15 < getHoursUTC startT then -30 else 0)

/-- `hoursSinceNow = (slot.start - now) / 3600000; if (hoursSinceNow < 48)
score += Math.max(0, 50 - hoursSinceNow)`, with the IEEE double replaced by
an exact rational. -/
def decayBonus (now startT : Int) : ℚ :=
  let hoursSinceNow : ℚ := ((startT : ℚ) - (now : ℚ)) / 3600000
  if hoursSinceNow < 48 then max 0 (50 - hoursSinceNow) else 0

/-- The additive score a single candidate receives in `selectOptimalSlot`
(lines 783-809), written as the sum of its five contributions. -/
def scoreSlot (now : Int) (slot : TimeInterval) : ℚ :=
  tooSoonBonus now slot.start + coreHoursBonus slot.start + midweekBonus slot.start
    + edgeOfWeekPenalty slot.start + decayBonus now slot.start

/-- A candidate paired with its score (`{ slot, score }`). -/
structure ScoredSlot where
  slot : TimeInterval
  score : ℚ
deriving DecidableEq

/-- Comparator of `scoredSlots.sort((a, b) => b.score - a.score)`:
descending by score. -/
def scoreGE (a b : ScoredSlot) : Prop := b.score ≤ a.score

instance : DecidableRel scoreGE := fun a b => inferInstanceAs (Decidable (b.score ≤ a.score))

instance : IsTotal ScoredSlot scoreGE := ⟨fun a b => le_total b.score a.score⟩

instance : IsTrans ScoredSlot scoreGE := ⟨fun _ _ _ h1 h2 => le_trans h2 h1⟩

/-- `selectOptimalSlot(availableSlots, preferences)`: throws on an empty
list, otherwise scores every candidate, sorts descending by score (stable)
and returns `scoredSlots[0].slot`. -/
def selectOptimalSlot (now : Int) (availableSlots : List TimeInterval) :
    Except String TimeInterval :=
  if availableSlots = [] then .error "No available slots provided"
  else
    match List.insertionSort scoreGE
        (availableSlots.map fun slot => ScoredSlot.mk slot (scoreSlot now slot)) with
    | [] => .error "No available slots provided"
    | s :: _ => .ok s.slot

/-- `calculateConfidence(selectedSlot, allSlots)`: depends only on the number
of candidates. -/
def calculateConfidence (allSlots : List TimeInterval) : ℚ :=
  let totalSlots := allSlots.length
  if totalSlots = 1 then 1
  else if totalSlots ≤ 3 then 0.9
  else if totalSlots ≤ 10 then 0.8
  else 0.7

/-- An attendee as `extractCalendarIds` sees it: either a plain string or an
object with optional `email` and `login` fields (absent or empty string both
behave as JS falsy). -/
inductive Attendee where
  | str (s : String)
  | obj (email : Option String) (login : Option String)
deriving DecidableEq

/-- JS truthiness of an optional string field: `undefined`/missing and `""`
are falsy. -/
def truthyStr : Option String → Bool
  | none => false
  | some s => s != ""

/-- The per-attendee branch of `extractCalendarIds` (lines 666-675): a string
yields itself when it contains `'@'`; otherwise a truthy `email` field is
taken as-is, else a truthy `login` field containing `'@'`. -/
def pickEmail : Attendee → Option String
  | .str s => if s.data.contains '@' then some s else none
  | .obj email login =>
    if truthyStr email then email
    else if truthyStr login && (login.getD "").data.contains '@' then login
    else none

/-- First-occurrence deduplication with an explicit `seen` accumulator,
the order-preserving behaviour of `[...new Set(calendarIds)]`. -/
def dedupKeepFirstAux (seen : List String) : List String → List String
  | [] => []
  | x :: xs =>
    if x ∈ seen then dedupKeepFirstAux seen xs
    else x :: dedupKeepFirstAux (x :: seen) xs

/-- `[...new Set(calendarIds)]`: keep the first occurrence of each id. -/
def dedupKeepFirst (l : List String) : List String := dedupKeepFirstAux [] l

/-- `extractCalendarIds(attendees)` (lines 663-683): collect every attendee's
email that passes the final `if (email && email.includes('@'))` guard, then
deduplicate preserving first occurrence. -/
def extractCalendarIds (attendees : List Attendee) : List String :=
  dedupKeepFirst (attendees.filterMap fun attendee =>
    match pickEmail attendee with
    | some email => if email != "" && email.data.contains '@' then some email else none
    | none => none)

/-- The value `findOptimalTime` resolves with (lines 381-390), minus the
locale-formatted string (out of scope of the resolver claims). -/
structure SchedulingResult where
  start : Int
  stop : Int
  duration : Int
  attendees : List String
  alternatives : List TimeInterval
  confidence : ℚ
deriving DecidableEq

deriving instance DecidableEq for Except

/-- `findOptimalTime(attendees, preferences, userToken, requestId)`
(lines 311-403).  The awaited `calendar.freebusy.query` is modelled as the
`provider` argument: either the fetched `data.calendars` or the provider's
error.  Everything thrown inside the `try` body — the empty-calendar-id
check, the provider failure, and the zero-candidate check — is re-thrown by
the `catch` block as `Calendar scheduling failed: ${error.message}`.
`Date.now()` is the explicit `now`; `alternatives` is
`availableSlots.slice(1, 4)` of the chronological candidate list. -/
def findOptimalTime (now : Int) (attendees : List Attendee)
    (provider : Except String (List (String × List TimeInterval)))
    (timeMin timeMax duration wStart wEnd bufferMinutes : Int) :
    Except String SchedulingResult :=
  let inner : Except String SchedulingResult :=
    let calendarIds := extractCalendarIds attendees
    if calendarIds = [] then .error "No valid email addresses found for attendees"
    else
      match provider with
      | .error m => .error m
      | .ok busyTimes =>
        let availableSlots := findAvailableSlots busyTimes calendarIds now timeMin timeMax
          duration wStart wEnd bufferMinutes
        if availableSlots = [] then .error "No available time slots found for all attendees"
        else
          match selectOptimalSlot now availableSlots with
          | .error m => .error m
          | .ok optimalSlot =>
            .ok { start := optimalSlot.start
                  stop := optimalSlot.stop
                  duration := duration
                  attendees := calendarIds
                  alternatives := (availableSlots.drop 1).take 3
                  confidence := calculateConfidence availableSlots }
  match inner with
  | .ok r => .ok r
  | .error m => .error ("Calendar scheduling failed: " ++ m)

/-!
Heap-passing model of `mergeBusyPeriods` for the mutation claim: busy-period
objects live in a heap (a list of records addressed by position) and the
input is a list of addresses, as in JS where `merged` holds references to
the very objects of `busyPeriods`.  `lastMerged.end = new Date(...)`
becomes `List.set` of the record the accumulator address points at.
-/

/-- The merge loop over addresses: `done` are the already-emitted addresses,
`lastIdx` the accumulator address (`merged[merged.length - 1]`); absorbing an
overlapping successor overwrites the accumulated record's `stop` in place. -/
def mergeHeapAux : List TimeInterval → List Nat → Nat → List Nat →
    List TimeInterval × List Nat
  | heap, done, lastIdx, [] => (heap, done ++ [lastIdx])
  | heap, done, lastIdx, c :: rest =>
    let lastI := heap.getD lastIdx ⟨0, 0⟩
    let curI := heap.getD c ⟨0, 0⟩
    if curI.start ≤ lastI.stop then
      mergeHeapAux (heap.set lastIdx ⟨lastI.start, max lastI.stop curI.stop⟩) done lastIdx rest
    else
      mergeHeapAux heap (done ++ [lastIdx]) c rest

/-- `mergeBusyPeriods` on the heap model: returns the final heap together
with the addresses of the merged intervals. -/
def mergeBusyPeriodsHeap (heap : List TimeInterval) :
    List Nat → List TimeInterval × List Nat
  | [] => (heap, [])
  | p :: ps => mergeHeapAux heap [] p ps

/-- Modelled from the spec: the alternatives contract of §4.3, "the next
three candidates by score rank (positions 2nd-4th in the score-sorted
list)": score every candidate, sort descending by score, drop the chosen
head and keep the next three.  Used only to compare the spec's wording
against what `findOptimalTime` actually returns. -/
def specAlternativesByScore (now : Int) (slots : List TimeInterval) : List TimeInterval :=
  (((List.insertionSort scoreGE
      (slots.map fun slot => ScoredSlot.mk slot (scoreSlot now slot))).drop 1).take 3).map
    ScoredSlot.slot

/-- A time point `t` lies in the union of a list of half-open intervals. -/
def memPt (t : Int) (l : List TimeInterval) : Prop :=
  ∃ i ∈ l, i.start ≤ t ∧ t < i.stop

/-- Two intervals separated by a positive gap: the left one ends strictly
before the right one starts (stronger than both disjointness and
distinctness of starts for valid intervals). -/
def gapR (a b : TimeInterval) : Prop := a.stop < b.start

instance : DecidableRel gapR := fun a b => inferInstanceAs (Decidable (a.stop < b.start))

instance {t : Int} {l : List TimeInterval} : Decidable (memPt t l) :=
  inferInstanceAs (Decidable (∃ i ∈ l, i.start ≤ t ∧ t < i.stop))

/-! ### Properties of the interval merger -/

theorem memPt_nil {t : Int} : ¬ memPt t [] := by simp [memPt]

theorem memPt_cons {t : Int} {a : TimeInterval} {l : List TimeInterval} :
    memPt t (a :: l) ↔ (a.start ≤ t ∧ t < a.stop) ∨ memPt t l := by
  simp [memPt, List.mem_cons, or_and_right, exists_or]

/-- The merge output always begins with an interval that keeps the
accumulator's start and whose end is at least the accumulator's end. -/
theorem mergeAux_head : ∀ (l : List TimeInterval) (last : TimeInterval),
    ∃ e tl, mergeAux last l = ⟨last.start, e⟩ :: tl ∧ last.stop ≤ e
  | [], last => ⟨last.stop, [], rfl, le_refl _⟩
  | c :: rest, last => by
    rw [mergeAux]
    split
    · obtain ⟨e, tl, heq, hle⟩ := mergeAux_head rest ⟨last.start, max last.stop c.stop⟩
      exact ⟨e, tl, heq, le_trans (le_max_left _ _) hle⟩
    · exact ⟨last.stop, mergeAux c rest, rfl, le_refl _⟩

/-- Consecutive merge outputs are separated by a positive gap: a new
interval is only started when `current.start > lastAccumulated.end`. -/
theorem mergeAux_chain : ∀ (l : List TimeInterval) (last : TimeInterval),
    (mergeAux last l).Chain' gapR
  | [], _ => List.chain'_singleton _
  | c :: rest, last => by
    rw [mergeAux]
    split
    · exact mergeAux_chain rest _
    · rename_i hgt
      obtain ⟨e, tl, heq, -⟩ := mergeAux_head rest c
      rw [heq, List.chain'_cons]
      refine ⟨lt_of_not_le hgt, ?_⟩
      rw [← heq]
      exact mergeAux_chain rest c

/-- Every merge output starts no earlier than the accumulator, provided the
input is sorted by start. -/
theorem mergeAux_start_lb : ∀ (l : List TimeInterval) (last : TimeInterval),
    List.Sorted startLE (last :: l) →
    ∀ i ∈ mergeAux last l, last.start ≤ i.start
  | [], last, _, i, hi => by
    simp only [mergeAux, List.mem_singleton] at hi
    exact hi ▸ le_refl _
  | c :: rest, last, h, i, hi => by
    obtain ⟨hlast, hrest⟩ := List.sorted_cons.mp h
    rw [mergeAux] at hi
    split at hi
    · have hsort : List.Sorted startLE (⟨last.start, max last.stop c.stop⟩ :: rest) := by
        refine List.sorted_cons.mpr ⟨fun b hb => ?_, (List.sorted_cons.mp hrest).2⟩
        exact hlast b (List.mem_cons_of_mem c hb)
      exact mergeAux_start_lb rest _ hsort i hi
    · rcases List.mem_cons.mp hi with rfl | hi'
      · exact le_refl _
      · exact le_trans (hlast c (List.mem_cons_self c rest))
          (mergeAux_start_lb rest c hrest i hi')

/-- The merge of a start-sorted list is itself sorted by start. -/
theorem mergeAux_sorted : ∀ (l : List TimeInterval) (last : TimeInterval),
    List.Sorted startLE (last :: l) →
    List.Sorted startLE (mergeAux last l)
  | [], last, _ => List.sorted_singleton _
  | c :: rest, last, h => by
    obtain ⟨hlast, hrest⟩ := List.sorted_cons.mp h
    rw [mergeAux]
    split
    · have hsort : List.Sorted startLE (⟨last.start, max last.stop c.stop⟩ :: rest) := by
        refine List.sorted_cons.mpr ⟨fun b hb => ?_, (List.sorted_cons.mp hrest).2⟩
        exact hlast b (List.mem_cons_of_mem c hb)
      exact mergeAux_sorted rest _ hsort
    · refine List.sorted_cons.mpr ⟨fun b hb => ?_, mergeAux_sorted rest c hrest⟩
      exact le_trans (hlast c (List.mem_cons_self c rest)) (mergeAux_start_lb rest c hrest b hb)

/-- Merging valid (`start < end`) intervals yields valid intervals. -/
theorem mergeAux_valid : ∀ (l : List TimeInterval) (last : TimeInterval),
    last.start < last.stop → (∀ i ∈ l, i.start < i.stop) →
    ∀ i ∈ mergeAux last l, i.start < i.stop
  | [], last, hlast, _, i, hi => by
    simp only [mergeAux, List.mem_singleton] at hi
    exact hi ▸ hlast
  | c :: rest, last, hlast, hl, i, hi => by
    rw [mergeAux] at hi
    split at hi
    · refine mergeAux_valid rest _ ?_ (fun j hj => hl j (List.mem_cons_of_mem c hj)) i hi
      exact lt_of_lt_of_le hlast (le_max_left _ _)
    · rcases List.mem_cons.mp hi with rfl | hi'
      · exact hlast
      · exact mergeAux_valid rest c (hl c (List.mem_cons_self c rest))
          (fun j hj => hl j (List.mem_cons_of_mem c hj)) i hi'

/-- Union preservation: on a start-sorted input, the merge covers exactly
the same time points as the input. -/
theorem mergeAux_union : ∀ (l : List TimeInterval) (last : TimeInterval),
    List.Sorted startLE (last :: l) →
    ∀ t : Int, memPt t (mergeAux last l) ↔ memPt t (last :: l)
  | [], _, _, t => Iff.rfl
  | c :: rest, last, h, t => by
    obtain ⟨hlast, hrest⟩ := List.sorted_cons.mp h
    have hlc : last.start ≤ c.start := hlast c (List.mem_cons_self c rest)
    rw [mergeAux]
    split
    · rename_i hcs
      have hsort : List.Sorted startLE (⟨last.start, max last.stop c.stop⟩ :: rest) := by
        refine List.sorted_cons.mpr ⟨fun b hb => ?_, (List.sorted_cons.mp hrest).2⟩
        exact hlast b (List.mem_cons_of_mem c hb)
      rw [mergeAux_union rest _ hsort t]
      simp only [memPt_cons]
      constructor
      · rintro (⟨h1, h2⟩ | hP)
        · rcases lt_max_iff.mp h2 with h2' | h2'
          · exact Or.inl ⟨h1, h2'⟩
          · rcases le_or_lt c.start t with hct | hct
            · exact Or.inr (Or.inl ⟨hct, h2'⟩)
            · exact Or.inl ⟨h1, lt_of_lt_of_le hct hcs⟩
        · exact Or.inr (Or.inr hP)
      · rintro (⟨h1, h2⟩ | ⟨h1, h2⟩ | hP)
        · exact Or.inl ⟨h1, lt_of_lt_of_le h2 (le_max_left _ _)⟩
        · exact Or.inl ⟨le_trans hlc h1, lt_of_lt_of_le h2 (le_max_right _ _)⟩
        · exact Or.inr hP
    · rw [memPt_cons, memPt_cons, mergeAux_union rest c hrest t]

/-- A `gapR`-chain of valid intervals is `gapR`-pairwise (the relation is
transitive across valid intervals). -/
theorem chain'_gapR_pairwise : ∀ l : List TimeInterval,
    l.Chain' gapR → (∀ i ∈ l, i.start < i.stop) → l.Pairwise gapR
  | [], _, _ => List.Pairwise.nil
  | [a], _, _ => List.pairwise_singleton _ a
  | a :: b :: l, hc, hv => by
    obtain ⟨hab, hc'⟩ := List.chain'_cons.mp hc
    have hv' : ∀ i ∈ b :: l, i.start < i.stop :=
      fun i hi => hv i (List.mem_cons_of_mem a hi)
    have hp : (b :: l).Pairwise gapR := chain'_gapR_pairwise (b :: l) hc' hv'
    refine List.pairwise_cons.mpr ⟨?_, hp⟩
    intro x hx
    rcases List.mem_cons.mp hx with rfl | hx'
    · exact hab
    · have hbx : gapR b x := (List.pairwise_cons.mp hp).1 x hx'
      have hbv : b.start < b.stop := hv b (List.mem_cons_of_mem a (List.mem_cons_self b l))
      exact lt_trans hab (lt_trans hbv hbx)

/-- Merging a list that is already separated by positive gaps changes
nothing. -/
theorem mergeAux_eq_of_chain : ∀ (l : List TimeInterval) (x : TimeInterval),
    (x :: l).Chain' gapR → mergeAux x l = x :: l
  | [], _, _ => rfl
  | c :: rest, x, hc => by
    obtain ⟨hxc, hc'⟩ := List.chain'_cons.mp hc
    rw [mergeAux, if_neg (not_le.mpr hxc)]
    rw [mergeAux_eq_of_chain rest c hc']

/-- The full sort-then-merge pipeline always yields a `gapR`-chain. -/
theorem mergeTimeline_chain (l : List TimeInterval) : (mergeTimeline l).Chain' gapR := by
  unfold mergeTimeline mergeBusyPeriods
  split
  · exact List.chain'_nil
  · exact mergeAux_chain _ _

/-- The full sort-then-merge pipeline always yields a start-sorted list. -/
theorem mergeTimeline_sorted (l : List TimeInterval) :
    List.Sorted startLE (mergeTimeline l) := by
  unfold mergeTimeline mergeBusyPeriods
  split
  · exact List.sorted_nil
  · rename_i p ps heq
    exact mergeAux_sorted ps p (heq ▸ List.sorted_insertionSort startLE l)

/-- C4: for every finite list of busy intervals with `start < end`, sorting
by start ascending and then merging (`mergeTimeline`, the pipeline of
`findAvailableSlots` lines 704-706) produces a list that is pairwise
separated by positive gaps (hence pairwise-disjoint with no shared starts),
strictly sorted by start, made of valid intervals, and whose union of time
points equals the union of the inputs; touching intervals are merged since
the output never contains `a.stop = b.start`. -/
theorem mergeTimeline_correct (l : List TimeInterval) (hv : ∀ i ∈ l, i.start < i.stop) :
    (mergeTimeline l).Pairwise gapR
      ∧ (mergeTimeline l).Pairwise (fun a b => a.start < b.start)
      ∧ (∀ i ∈ mergeTimeline l, i.start < i.stop)
      ∧ (∀ t : Int, memPt t (mergeTimeline l) ↔ memPt t l) := by
  have hvalid : ∀ i ∈ mergeTimeline l, i.start < i.stop := by
    unfold mergeTimeline mergeBusyPeriods
    split
    · intro i hi; simp at hi
    · rename_i p ps heq
      have hmem : ∀ i ∈ p :: ps, i.start < i.stop := by
        rw [← heq]
        intro i hi
        exact hv i ((List.mem_insertionSort _).mp hi)
      exact mergeAux_valid ps p (hmem p (List.mem_cons_self p ps))
        (fun i hi => hmem i (List.mem_cons_of_mem p hi))
  have hpair : (mergeTimeline l).Pairwise gapR :=
    chain'_gapR_pairwise _ (mergeTimeline_chain l) hvalid
  refine ⟨hpair, ?_, hvalid, ?_⟩
  · refine List.Pairwise.imp_of_mem ?_ hpair
    intro a b ha _ hab
    exact lt_of_lt_of_le (hvalid a ha) (le_of_lt hab)
  · intro t
    have hperm : memPt t (sortByStart l) ↔ memPt t l := by
      simp [memPt, sortByStart]
    rw [← hperm]
    unfold mergeTimeline mergeBusyPeriods
    split
    · rename_i heq
      rw [heq]
    · rename_i p ps heq
      rw [heq]
      exact mergeAux_union ps p (heq ▸ List.sorted_insertionSort startLE l) t

theorem mergeTimeline_correct_witness :
    (∀ i ∈ [(⟨5, 10⟩ : TimeInterval), ⟨0, 6⟩, ⟨10, 12⟩, ⟨20, 25⟩], i.start < i.stop)
      ∧ ((mergeTimeline [⟨5, 10⟩, ⟨0, 6⟩, ⟨10, 12⟩, ⟨20, 25⟩]).Pairwise gapR
        ∧ (mergeTimeline [⟨5, 10⟩, ⟨0, 6⟩, ⟨10, 12⟩, ⟨20, 25⟩]).Pairwise
            (fun a b => a.start < b.start)
        ∧ (∀ i ∈ mergeTimeline [⟨5, 10⟩, ⟨0, 6⟩, ⟨10, 12⟩, ⟨20, 25⟩], i.start < i.stop)
        ∧ (∀ t : Int, memPt t (mergeTimeline [⟨5, 10⟩, ⟨0, 6⟩, ⟨10, 12⟩, ⟨20, 25⟩])
            ↔ memPt t [⟨5, 10⟩, ⟨0, 6⟩, ⟨10, 12⟩, ⟨20, 25⟩])) :=
  ⟨by decide, mergeTimeline_correct _ (by decide)⟩

/-- C5: the merger is idempotent — applying the sort-then-merge pipeline to
its own output returns the very same list, for every input (no validity
assumption needed). -/
theorem mergeTimeline_idempotent (l : List TimeInterval) :
    mergeTimeline (mergeTimeline l) = mergeTimeline l := by
  have hs := mergeTimeline_sorted l
  have hc := mergeTimeline_chain l
  rcases h : mergeTimeline l with - | ⟨x, xs⟩
  · rfl
  · rw [h] at hs hc
    show mergeBusyPeriods (sortByStart (x :: xs)) = x :: xs
    rw [sortByStart, hs.insertionSort_eq]
    exact mergeAux_eq_of_chain xs x hc

/-! ### Properties of the slot generator -/

/-- Every slot the `while` loop of `findSlotsInTimeRange` emits starts
within working hours, has end hour-of-day at most `workingHours.end`, has
exactly the requested duration, fits before `endTime`, and starts on the
15-minute lattice anchored at the loop's starting point. -/
theorem mem_slotLoop (endTime durationMs wStart wEnd : Int) :
    ∀ (fuel : Nat) (current : Int) (slot : TimeInterval),
      slot ∈ slotLoop endTime durationMs wStart wEnd fuel current →
      (wStart ≤ getHoursUTC slot.start ∧ getHoursUTC slot.start < wEnd)
        ∧ getHoursUTC slot.stop ≤ wEnd
        ∧ slot.stop = slot.start + durationMs
        ∧ slot.stop ≤ endTime
        ∧ ∃ k : Nat, slot.start = current + 900000 * k := by
  intro fuel
  induction fuel with
  | zero => intro current slot h; simp [slotLoop] at h
  | succ n ih =>
    intro current slot h
    rw [slotLoop] at h
    split at h
    · rename_i hfit
      split at h
      · rename_i hhour
        split at h
        · rename_i hend
          rcases List.mem_cons.mp h with rfl | hmem
          · exact ⟨hhour, hend, rfl, hfit, 0, by ring⟩
          · obtain ⟨a, b, c, d, k, hk⟩ := ih _ _ hmem
            exact ⟨a, b, c, d, k + 1, by rw [hk]; push_cast; ring⟩
        · obtain ⟨a, b, c, d, k, hk⟩ := ih _ _ h
          exact ⟨a, b, c, d, k + 1, by rw [hk]; push_cast; ring⟩
      · obtain ⟨a, b, c, d, k, hk⟩ := ih _ _ h
        exact ⟨a, b, c, d, k + 1, by rw [hk]; push_cast; ring⟩
    · simp at h

/-- C2 counterexample: with working hours 9-17 and a 30-minute duration, the
gap 16:45-17:15 (UTC, Jan 1 1970) yields the candidate 16:45-17:15, whose
end time 17:15 is 15 minutes past `endHour:00` (17:00 is 61200000 ms) — the
end check `slotEnd.getHours() <= workingHours.end` accepts ends strictly
after `endHour:00`, refuting the claim that such a slot is rejected. -/
theorem slot_past_working_hours_end :
    (⟨60300000, 62100000⟩ : TimeInterval)
        ∈ findSlotsInTimeRange 60300000 62100000 1800000 9 17
      ∧ ¬ ((62100000 : Int) ≤ 17 * 3600000) := by decide

/-- C2 amended: every candidate emitted by `findSlotsInTimeRange` starts
with hour-of-day in `[workingHours.start, workingHours.end)` and ends with
hour-of-day at most `workingHours.end` — the end may therefore run up to 59
minutes past `endHour:00`, but no further. -/
theorem findSlots_within_working_hours
    (startTime endTime durationMs wStart wEnd : Int) (slot : TimeInterval)
    (h : slot ∈ findSlotsInTimeRange startTime endTime durationMs wStart wEnd) :
    (wStart ≤ getHoursUTC slot.start ∧ getHoursUTC slot.start < wEnd)
      ∧ getHoursUTC slot.stop ≤ wEnd ∧ slot.stop = slot.start + durationMs := by
  obtain ⟨a, b, c, -⟩ := mem_slotLoop endTime durationMs wStart wEnd _ _ slot h
  exact ⟨a, b, c⟩

theorem findSlots_within_working_hours_witness :
    (⟨60300000, 62100000⟩ : TimeInterval)
        ∈ findSlotsInTimeRange 60300000 62100000 1800000 9 17
      ∧ ((9 ≤ getHoursUTC 60300000 ∧ getHoursUTC 60300000 < 17)
        ∧ getHoursUTC 62100000 ≤ 17 ∧ (62100000 : Int) = 60300000 + 1800000) :=
  ⟨by decide,
    findSlots_within_working_hours 60300000 62100000 1800000 9 17 ⟨60300000, 62100000⟩
      (by decide)⟩

/-- C3 counterexample: a busy interval 9:00-9:05 with a 15-minute buffer
makes the following gap start at 9:20 (= 33600000 ms), which is not
re-snapped, so the generator emits the slot 9:20-9:50 whose start is not on
a 15-minute boundary (33600000 mod 900000 = 300000 ≠ 0). -/
theorem slot_off_quarter_grid :
    findAvailableSlots [("a@x", [⟨32400000, 32700000⟩])] ["a@x"] 0 0 36000000 30 9 17 15
        = [⟨33600000, 35400000⟩]
      ∧ (33600000 : Int) % 900000 ≠ 0 := by decide

/-- C3 amended: within a single gap the candidate starts do advance on the
fixed 15-minute lattice anchored at the gap's start, and the initial
`roundToNextQuarter` lands on a 15-minute boundary whenever the rounded
time has zero seconds and milliseconds; but gaps opened at a busy
interval's end plus buffer are not re-snapped, so their lattice need not be
aligned to clock quarters. -/
theorem slots_advance_in_quarter_steps :
    (∀ (startTime endTime durationMs wStart wEnd : Int) (slot : TimeInterval),
        slot ∈ findSlotsInTimeRange startTime endTime durationMs wStart wEnd →
        ∃ k : Nat, slot.start = startTime + 900000 * k)
      ∧ (∀ t : Int, t % 60000 = 0 → (roundToNextQuarter t) % 900000 = 0) := by
  constructor
  · intro startTime endTime durationMs wStart wEnd slot h
    exact (mem_slotLoop endTime durationMs wStart wEnd _ _ slot h).2.2.2.2
  · intro t ht
    unfold roundToNextQuarter getMinutesUTC
    dsimp only
    split <;> omega

theorem slots_advance_in_quarter_steps_witness :
    (∃ k : Nat, (33600000 : Int) = 33600000 + 900000 * k)
      ∧ (roundToNextQuarter 35400000) % 900000 = 0 :=
  ⟨slots_advance_in_quarter_steps.1 33600000 36000000 1800000 9 17 ⟨33600000, 35400000⟩
      (by decide),
    slots_advance_in_quarter_steps.2 35400000 (by decide)⟩

/-- C6 counterexample: the slot starting at 16:00 UTC (t = 57600000, hour
16) receives the +50 core-hours bonus even though 16 is outside `[10,16)`,
refuting the claimed iff with the half-open interval. -/
theorem coreHoursBonus_hour16_included :
    ¬ (coreHoursBonus 57600000 = 50
        ↔ 10 ≤ getHoursUTC 57600000 ∧ getHoursUTC 57600000 < 16) := by decide

/-- C6 amended: the scorer adds exactly +50 if and only if the slot's start
hour-of-day lies in the closed interval `[10,16]` — hours 10 through 16
inclusive, so a slot starting in hour 16 also receives the bonus — and
adds 0 otherwise. -/
theorem coreHoursBonus_iff (t : Int) :
    (coreHoursBonus t = 50 ↔ 10 ≤ getHoursUTC t ∧ getHoursUTC t ≤ 16)
      ∧ (coreHoursBonus t = 0 ↔ ¬ (10 ≤ getHoursUTC t ∧ getHoursUTC t ≤ 16)) := by
  unfold coreHoursBonus
  split <;> rename_i h <;> norm_num [h]

/-! ### Properties of the orchestration `findOptimalTime` -/

/-
Concrete evaluation of the scoring pipeline on the five-candidate scenario
used below (Thursday Jan 1 1970, `now = 0`, candidates every 15 minutes
from 9:00 to 10:00, 30-minute duration).  Rational arithmetic does not
reduce inside the kernel, so the scores and the sort are evaluated by
`norm_num` once here and reused.
-/

theorem scoreSlot_eval_900 : scoreSlot 0 ⟨32400000, 34200000⟩ = 161 := by
  simp only [scoreSlot, tooSoonBonus, coreHoursBonus, midweekBonus, edgeOfWeekPenalty,
    decayBonus, getHoursUTC, getDayUTC]
  norm_num [max_def]

theorem scoreSlot_eval_915 : scoreSlot 0 ⟨33300000, 35100000⟩ = 643 / 4 := by
  simp only [scoreSlot, tooSoonBonus, coreHoursBonus, midweekBonus, edgeOfWeekPenalty,
    decayBonus, getHoursUTC, getDayUTC]
  norm_num [max_def]

theorem scoreSlot_eval_930 : scoreSlot 0 ⟨34200000, 36000000⟩ = 321 / 2 := by
  simp only [scoreSlot, tooSoonBonus, coreHoursBonus, midweekBonus, edgeOfWeekPenalty,
    decayBonus, getHoursUTC, getDayUTC]
  norm_num [max_def]

theorem scoreSlot_eval_945 : scoreSlot 0 ⟨35100000, 36900000⟩ = 641 / 4 := by
  simp only [scoreSlot, tooSoonBonus, coreHoursBonus, midweekBonus, edgeOfWeekPenalty,
    decayBonus, getHoursUTC, getDayUTC]
  norm_num [max_def]

theorem scoreSlot_eval_1000 : scoreSlot 0 ⟨36000000, 37800000⟩ = 210 := by
  simp only [scoreSlot, tooSoonBonus, coreHoursBonus, midweekBonus, edgeOfWeekPenalty,
    decayBonus, getHoursUTC, getDayUTC]
  norm_num [max_def]

theorem sortScored_eval :
    List.insertionSort scoreGE
        [⟨⟨32400000, 34200000⟩, 161⟩, ⟨⟨33300000, 35100000⟩, 643 / 4⟩,
          ⟨⟨34200000, 36000000⟩, 321 / 2⟩, ⟨⟨35100000, 36900000⟩, 641 / 4⟩,
          ⟨⟨36000000, 37800000⟩, 210⟩]
      = [⟨⟨36000000, 37800000⟩, 210⟩, ⟨⟨32400000, 34200000⟩, 161⟩,
          ⟨⟨33300000, 35100000⟩, 643 / 4⟩, ⟨⟨34200000, 36000000⟩, 321 / 2⟩,
          ⟨⟨35100000, 36900000⟩, 641 / 4⟩] := by
  norm_num [List.insertionSort, List.orderedInsert, scoreGE]

theorem fiveSlots_eval :
    findAvailableSlots [("a@x", [])] ["a@x"] 0 0 37800000 30 9 17 15
      = [⟨32400000, 34200000⟩, ⟨33300000, 35100000⟩, ⟨34200000, 36000000⟩,
          ⟨35100000, 36900000⟩, ⟨36000000, 37800000⟩] := by decide

theorem selectOptimalSlot_eval :
    selectOptimalSlot 0
        [⟨32400000, 34200000⟩, ⟨33300000, 35100000⟩, ⟨34200000, 36000000⟩,
          ⟨35100000, 36900000⟩, ⟨36000000, 37800000⟩]
      = .ok ⟨36000000, 37800000⟩ := by
  unfold selectOptimalSlot
  rw [if_neg (by decide)]
  simp only [List.map]
  rw [scoreSlot_eval_900, scoreSlot_eval_915, scoreSlot_eval_930, scoreSlot_eval_945,
    scoreSlot_eval_1000, sortScored_eval]

theorem findOptimalTime_eval :
    findOptimalTime 0 [Attendee.str "a@x"] (.ok [("a@x", [])]) 0 37800000 30 9 17 15
      = .ok { start := 36000000, stop := 37800000, duration := 30, attendees := ["a@x"],
              alternatives := [⟨33300000, 35100000⟩, ⟨34200000, 36000000⟩,
                ⟨35100000, 36900000⟩],
              confidence := 0.8 } := by
  have hids : extractCalendarIds [Attendee.str "a@x"] = ["a@x"] := by decide
  simp only [findOptimalTime, hids, fiveSlots_eval, selectOptimalSlot_eval,
    calculateConfidence]
  norm_num
  rfl

/-- C1 counterexample: with five feasible candidates of distinct scores
(9:00, 9:15, 9:30, 9:45, 10:00 UTC on Thursday Jan 1 1970; the 10:00 slot
scores highest thanks to the core-hours bonus), the result's
`alternatives` is `availableSlots.slice(1, 4)` — the chronological
candidates 9:15, 9:30, 9:45 — and differs from the spec's score-ranked
2nd-4th candidates 9:00, 9:15, 9:30. -/
theorem alternatives_not_by_score_rank :
    ((findOptimalTime 0 [Attendee.str "a@x"] (.ok [("a@x", [])]) 0 37800000 30 9 17 15).map
        SchedulingResult.alternatives
      = .ok [⟨33300000, 35100000⟩, ⟨34200000, 36000000⟩, ⟨35100000, 36900000⟩])
      ∧ specAlternativesByScore 0
          (findAvailableSlots [("a@x", [])] ["a@x"] 0 0 37800000 30 9 17 15)
        = [⟨32400000, 34200000⟩, ⟨33300000, 35100000⟩, ⟨34200000, 36000000⟩]
      ∧ ([(⟨33300000, 35100000⟩ : TimeInterval), ⟨34200000, 36000000⟩, ⟨35100000, 36900000⟩]
        ≠ [⟨32400000, 34200000⟩, ⟨33300000, 35100000⟩, ⟨34200000, 36000000⟩]) := by
  refine ⟨?_, ?_, by decide⟩
  · rw [findOptimalTime_eval]
    rfl
  · rw [fiveSlots_eval]
    unfold specAlternativesByScore
    simp only [List.map]
    rw [scoreSlot_eval_900, scoreSlot_eval_915, scoreSlot_eval_930, scoreSlot_eval_945,
      scoreSlot_eval_1000, sortScored_eval]
    rfl

/-- C1 amended: whenever `findOptimalTime` succeeds, the `alternatives`
field equals the candidates at chronological positions 2-4 of the
generation-order list (`availableSlots.slice(1, 4)`), not the score-ranked
2nd-4th. -/
theorem alternatives_eq_chronological_slice
    (now : Int) (attendees : List Attendee) (busyTimes : List (String × List TimeInterval))
    (timeMin timeMax duration wStart wEnd bufferMinutes : Int) (r : SchedulingResult)
    (h : findOptimalTime now attendees (.ok busyTimes) timeMin timeMax duration
        wStart wEnd bufferMinutes = .ok r) :
    r.alternatives
      = ((findAvailableSlots busyTimes (extractCalendarIds attendees) now timeMin timeMax
          duration wStart wEnd bufferMinutes).drop 1).take 3 := by
  by_cases h1 : extractCalendarIds attendees = []
  · simp [findOptimalTime, h1] at h
  · by_cases h2 : findAvailableSlots busyTimes (extractCalendarIds attendees) now timeMin
        timeMax duration wStart wEnd bufferMinutes = []
    · simp [findOptimalTime, h1, h2] at h
    · rcases h3 : selectOptimalSlot now (findAvailableSlots busyTimes
          (extractCalendarIds attendees) now timeMin timeMax duration wStart wEnd bufferMinutes)
        with m | s
      · simp [findOptimalTime, h1, h2, h3] at h
      · simp [findOptimalTime, h1, h2, h3] at h
        rw [← h]
        simp [List.drop_one]

theorem alternatives_eq_chronological_slice_witness :
    ({ start := 36000000, stop := 37800000, duration := 30, attendees := ["a@x"],
        alternatives := [⟨33300000, 35100000⟩, ⟨34200000, 36000000⟩, ⟨35100000, 36900000⟩],
        confidence := 0.8 } : SchedulingResult).alternatives
      = ((findAvailableSlots [("a@x", [])] ["a@x"] 0 0 37800000 30 9 17 15).drop 1).take 3 :=
  alternatives_eq_chronological_slice 0 [Attendee.str "a@x"] [("a@x", [])] 0 37800000 30 9 17
    15 _ findOptimalTime_eval

/-- C7: whenever the candidate generator yields zero slots (and the
attendee list did produce calendar ids, and the busy fetch succeeded),
`findOptimalTime` resolves to the distinct no-availability error — wrapped
by the catch block — and the result does not depend on slot selection or
confidence computation, which are never reached. -/
theorem findOptimalTime_no_slots_error
    (now : Int) (attendees : List Attendee) (busyTimes : List (String × List TimeInterval))
    (timeMin timeMax duration wStart wEnd bufferMinutes : Int)
    (h1 : extractCalendarIds attendees ≠ [])
    (h2 : findAvailableSlots busyTimes (extractCalendarIds attendees) now timeMin timeMax
        duration wStart wEnd bufferMinutes = []) :
    findOptimalTime now attendees (.ok busyTimes) timeMin timeMax duration wStart wEnd
        bufferMinutes
      = .error "Calendar scheduling failed: No available time slots found for all attendees" := by
  simp [findOptimalTime, h1, h2]

theorem findOptimalTime_no_slots_error_witness :
    findOptimalTime 0 [Attendee.str "a@x"] (.ok [("a@x", [⟨0, 87300000⟩])]) 0 86400000 30 9 17
        15
      = .error "Calendar scheduling failed: No available time slots found for all attendees" :=
  findOptimalTime_no_slots_error 0 [Attendee.str "a@x"] [("a@x", [⟨0, 87300000⟩])] 0 86400000
    30 9 17 15 (by decide) (by decide)

/-- C8 counterexample: when the busy-interval fetch fails with
"provider down", the caller receives "Calendar scheduling failed: provider
down" — the catch block rewraps the provider error, so it is not
propagated verbatim. -/
theorem providerError_not_verbatim :
    findOptimalTime 0 [Attendee.str "a@x"] (.error "provider down") 0 86400000 30 9 17 15
        = .error "Calendar scheduling failed: provider down"
      ∧ (Except.error "Calendar scheduling failed: provider down"
          : Except String SchedulingResult) ≠ .error "provider down" := by
  constructor
  · decide
  · decide

/-- C8 amended: a provider failure is propagated to the caller with no
retry and no fallback, but wrapped exactly once: the caller's error message
is the fixed prefix "Calendar scheduling failed: " followed by the
provider's own message. -/
theorem findOptimalTime_provider_error_wrapped
    (now : Int) (attendees : List Attendee) (e : String)
    (timeMin timeMax duration wStart wEnd bufferMinutes : Int)
    (h1 : extractCalendarIds attendees ≠ []) :
    findOptimalTime now attendees (.error e) timeMin timeMax duration wStart wEnd bufferMinutes
      = .error ("Calendar scheduling failed: " ++ e) := by
  simp [findOptimalTime, h1]

theorem findOptimalTime_provider_error_wrapped_witness :
    findOptimalTime 0 [Attendee.str "a@x"] (.error "provider down") 0 86400000 30 9 17 15
      = .error ("Calendar scheduling failed: " ++ "provider down") :=
  findOptimalTime_provider_error_wrapped 0 [Attendee.str "a@x"] "provider down" 0 86400000 30
    9 17 15 (by decide)

/-! ### Mutation behaviour of the heap-passing merge -/

/-- One in-place update of the accumulated record: the `start` projection of
every heap address is unchanged and every record's `stop` can only grow. -/
theorem set_step_frame (heap : List TimeInterval) (lastIdx : Nat) (v : TimeInterval)
    (hstart : v.start = (heap.getD lastIdx ⟨0, 0⟩).start)
    (hstop : (heap.getD lastIdx ⟨0, 0⟩).stop ≤ v.stop) (j : Nat) :
    ((heap.set lastIdx v)[j]?.map TimeInterval.start = heap[j]?.map TimeInterval.start)
      ∧ ∀ a, heap[j]? = some a →
          ∃ b, (heap.set lastIdx v)[j]? = some b ∧ a.stop ≤ b.stop := by
  by_cases hj : lastIdx = j
  · subst hj
    by_cases hlt : lastIdx < heap.length
    · have h1 : (heap.set lastIdx v)[lastIdx]? = some v :=
        List.getElem?_set_eq_of_lt v hlt
      have h2 : heap[lastIdx]? = some heap[lastIdx] := List.getElem?_eq_getElem hlt
      have h3 : heap.getD lastIdx ⟨0, 0⟩ = heap[lastIdx] := by
        rw [List.getD_eq_getElem?_getD, h2]
        rfl
      constructor
      · rw [h1, h2, Option.map_some', Option.map_some', hstart, h3]
      · intro a ha
        rw [h2] at ha
        refine ⟨v, h1, ?_⟩
        rw [h3] at hstop
        exact (Option.some.inj ha) ▸ hstop
    · rw [List.set_eq_of_length_le (Nat.le_of_not_lt hlt)]
      exact ⟨rfl, fun a ha => ⟨a, ha, le_refl _⟩⟩
  · rw [List.getElem?_set_ne hj]
    exact ⟨rfl, fun a ha => ⟨a, ha, le_refl _⟩⟩

/-- The merge loop never changes any record's `start` and only ever
increases a record's `stop`. -/
theorem mergeHeapAux_frame : ∀ (ps : List Nat) (heap : List TimeInterval)
    (done : List Nat) (lastIdx : Nat) (j : Nat),
    ((mergeHeapAux heap done lastIdx ps).1[j]?.map TimeInterval.start
        = heap[j]?.map TimeInterval.start)
      ∧ ∀ a, heap[j]? = some a →
          ∃ b, (mergeHeapAux heap done lastIdx ps).1[j]? = some b ∧ a.stop ≤ b.stop
  | [], heap, done, lastIdx, j => ⟨rfl, fun a ha => ⟨a, ha, le_refl _⟩⟩
  | c :: rest, heap, done, lastIdx, j => by
    rw [mergeHeapAux]
    split
    · have hstep := set_step_frame heap lastIdx
        ⟨(heap.getD lastIdx ⟨0, 0⟩).start,
          max (heap.getD lastIdx ⟨0, 0⟩).stop (heap.getD c ⟨0, 0⟩).stop⟩
        rfl (le_max_left _ _) j
      have hrec := mergeHeapAux_frame rest
        (heap.set lastIdx
          ⟨(heap.getD lastIdx ⟨0, 0⟩).start,
            max (heap.getD lastIdx ⟨0, 0⟩).stop (heap.getD c ⟨0, 0⟩).stop⟩)
        done lastIdx j
      refine ⟨hrec.1.trans hstep.1, fun a ha => ?_⟩
      obtain ⟨b, hb, hab⟩ := hstep.2 a ha
      obtain ⟨b', hb', hbb'⟩ := hrec.2 b hb
      exact ⟨b', hb', le_trans hab hbb'⟩
    · exact mergeHeapAux_frame rest heap (done ++ [lastIdx]) c j

/-- C9 counterexample: merging the heap `[⟨0,10⟩, ⟨5,20⟩]` along addresses
`[0, 1]` overwrites the first record's `end` in place (the accumulated
interval aliases the input object), leaving the heap changed — so inputs
are not left unmutated. -/
theorem mergeHeap_mutates_input :
    (mergeBusyPeriodsHeap [⟨0, 10⟩, ⟨5, 20⟩] [0, 1]).1 ≠ [⟨0, 10⟩, ⟨5, 20⟩]
      ∧ (mergeBusyPeriodsHeap [⟨0, 10⟩, ⟨5, 20⟩] [0, 1]).1 = [⟨0, 20⟩, ⟨5, 20⟩] := by
  constructor
  · decide
  · decide

/-- C9 amended: the merge does mutate in place, but in a restricted way:
for every heap and every input address list, each record's `start` field is
left exactly as it was, and each record's `end` field can only grow (it is
overwritten with a max that includes its old value); records never absorbed
as accumulator are unchanged. -/
theorem mergeHeap_start_preserved_stop_monotone
    (heap : List TimeInterval) (ps : List Nat) (j : Nat) :
    ((mergeBusyPeriodsHeap heap ps).1[j]?.map TimeInterval.start
        = heap[j]?.map TimeInterval.start)
      ∧ ∀ a, heap[j]? = some a →
          ∃ b, (mergeBusyPeriodsHeap heap ps).1[j]? = some b ∧ a.stop ≤ b.stop := by
  cases ps with
  | nil => exact ⟨rfl, fun a ha => ⟨a, ha, le_refl _⟩⟩
  | cons p ps' => exact mergeHeapAux_frame ps' heap [] p j

theorem mergeHeap_start_preserved_stop_monotone_witness :
    ∃ b, (mergeBusyPeriodsHeap [(⟨0, 10⟩ : TimeInterval), ⟨5, 20⟩] [0, 1]).1[0]? = some b
      ∧ (10 : Int) ≤ b.stop :=
  (mergeHeap_start_preserved_stop_monotone [⟨0, 10⟩, ⟨5, 20⟩] [0, 1] 0).2 ⟨0, 10⟩ (by decide)

/-! ### Calendar-id extraction -/

/-- Membership in the first-occurrence dedup: an element survives iff it was
in the list and not already seen. -/
theorem dedupKeepFirstAux_mem : ∀ (l seen : List String) (y : String),
    y ∈ dedupKeepFirstAux seen l ↔ y ∈ l ∧ y ∉ seen
  | [], seen, y => by simp [dedupKeepFirstAux]
  | x :: xs, seen, y => by
    rw [dedupKeepFirstAux]
    split
    · rename_i hx
      rw [dedupKeepFirstAux_mem xs seen y]
      simp only [List.mem_cons]
      constructor
      · rintro ⟨hy, hs⟩
        exact ⟨Or.inr hy, hs⟩
      · rintro ⟨hy | hy, hs⟩
        · exact absurd (hy ▸ hx) hs
        · exact ⟨hy, hs⟩
    · rename_i hx
      simp only [List.mem_cons, dedupKeepFirstAux_mem xs (x :: seen) y]
      constructor
      · rintro (rfl | ⟨hy, hs⟩)
        · exact ⟨Or.inl rfl, hx⟩
        · exact ⟨Or.inr hy, fun h => hs (Or.inr h)⟩
      · rintro ⟨rfl | hy, hs⟩
        · exact Or.inl rfl
        · by_cases hxy : y = x
          · exact Or.inl hxy
          · exact Or.inr ⟨hy, fun h => h.elim hxy hs⟩

/-- The first-occurrence dedup never repeats an element. -/
theorem dedupKeepFirstAux_nodup : ∀ (l seen : List String),
    (dedupKeepFirstAux seen l).Nodup
  | [], _ => List.nodup_nil
  | x :: xs, seen => by
    rw [dedupKeepFirstAux]
    split
    · exact dedupKeepFirstAux_nodup xs seen
    · refine List.nodup_cons.mpr ⟨?_, dedupKeepFirstAux_nodup xs (x :: seen)⟩
      intro hx
      exact ((dedupKeepFirstAux_mem xs (x :: seen) x).mp hx).2 (List.mem_cons_self x seen)

/-- C10: `extractCalendarIds` keeps only `'@'`-containing, non-empty emails
(from plain strings, object `email` fields, or `'@'`-containing `login`
fields); it deduplicates so each email appears exactly once (`Nodup`, and
membership coincides with the filtered email list); and when it is empty
`findOptimalTime` fails with the (wrapped) no-valid-email error regardless
of the provider — the busy-interval fetch result is never consulted. -/
theorem extractCalendarIds_spec (attendees : List Attendee) :
    (∀ email ∈ extractCalendarIds attendees, email.data.contains '@' = true ∧ email ≠ "")
      ∧ (extractCalendarIds attendees).Nodup
      ∧ (∀ email, email ∈ extractCalendarIds attendees ↔
          email ∈ attendees.filterMap (fun attendee =>
            match pickEmail attendee with
            | some e => if e != "" && e.data.contains '@' then some e else none
            | none => none))
      ∧ (extractCalendarIds attendees = [] →
          ∀ (now : Int) (provider : Except String (List (String × List TimeInterval)))
            (timeMin timeMax duration wStart wEnd bufferMinutes : Int),
            findOptimalTime now attendees provider timeMin timeMax duration wStart wEnd
                bufferMinutes
              = .error "Calendar scheduling failed: No valid email addresses found for attendees") := by
  refine ⟨?_, dedupKeepFirstAux_nodup _ [], ?_, ?_⟩
  · intro email hmem
    obtain ⟨hmem', -⟩ :=
      (dedupKeepFirstAux_mem _ [] email).mp hmem
    obtain ⟨a, -, hfa⟩ := List.mem_filterMap.mp hmem'
    rcases hpe : pickEmail a with - | e
    · rw [hpe] at hfa
      exact absurd hfa (by simp)
    · rw [hpe] at hfa
      simp only at hfa
      split at hfa
      · rename_i hcond
        obtain ⟨hne, hat⟩ := Bool.and_eq_true_iff.mp hcond
        cases Option.some.inj hfa
        exact ⟨hat, by simpa using hne⟩
      · exact absurd hfa (by simp)
  · intro email
    rw [extractCalendarIds, dedupKeepFirst, dedupKeepFirstAux_mem]
    simp
  · intro hempty now provider timeMin timeMax duration wStart wEnd bufferMinutes
    simp [findOptimalTime, hempty]

theorem extractCalendarIds_spec_witness :
    findOptimalTime 0 [Attendee.str "nope", Attendee.obj none none]
        (.error "never consulted") 0 86400000 30 9 17 15
      = .error "Calendar scheduling failed: No valid email addresses found for attendees" :=
  (extractCalendarIds_spec [Attendee.str "nope", Attendee.obj none none]).2.2.2
    (by decide) 0 (.error "never consulted") 0 86400000 30 9 17 15

end CalendarConnector
